import Mathlib

/-!
Shallow embedding of the Jobclick daily job-application counter
(`src/App.tsx`) and verification of its specification.

The program keeps an ordered list of per-day records
`{ count: number; date: string /- YYYY-MM-DD -/ }`, creates today's record
lazily, mutates it with increment/reset, derives summary statistics, and
persists the list as JSON under the localStorage key
`"jobApplicationHistory"`.

Modelling conventions:
* JS `number` counts are modelled as `Int` (the program only ever stores
  integers: records are created with count 0 and mutated by `+ 1` / `:= 0`).
* calendar dates handed to the JS `Date` API are modelled as civil
  `(year, month, day)` triples; `toLocaleDateString("en-CA")` is the
  zero-padded `YYYY-MM-DD` rendering, and `setDate(getDate() - 6)` is
  six applications of "previous civil day".
* JS string comparison (`>=` on strings) is code-unit lexicographic order;
  on the ASCII date strings involved it coincides with the code-point
  lexicographic order modelled here.
* localStorage contents are classified by their `JSON.parse` result: a
  stored string either parses to a JSON value (`Stored.blob j`) or throws
  (`Stored.junk`); `JSON.stringify` of a value is the string that parses
  back to that value.  The React `isClient` hydration guard is presentation
  plumbing and is not part of the store contract.
-/

namespace Jobclick

/-- `interface TrackerData { count: number; date: string }` (src/App.tsx lines 5-8). -/
structure TrackerData where
  count : Int
  date : String
  deriving Repr, DecidableEq

/-- The record returned by the `summaryStats` memo (src/App.tsx lines 102-119). -/
structure Summary where
  total : Int
  last7DaysTotal : Int
  bestDay : TrackerData
  deriving Repr, DecidableEq

/-- A civil calendar date, the state of a JS `Date` at day granularity. -/
structure Date where
  year : Nat
  month : Nat
  day : Nat
  deriving Repr, DecidableEq

/-- Gregorian leap-year rule, as implemented by the JS `Date` calendar. -/
def isLeapYear (y : Nat) : Bool :=
  y % 4 == 0 && (y % 100 != 0 || y % 400 == 0)

/-- Number of days of month `m` of year `y` in the Gregorian calendar. -/
def daysInMonth (y m : Nat) : Nat :=
  if m == 2 then (if isLeapYear y then 29 else 28)
  else if m == 4 || m == 6 || m == 9 || m == 11 then 30
  else 31

/-- The civil day before `d`. -/
def prevDay (d : Date) : Date :=
  if 1 < d.day then ⟨d.year, d.month, d.day - 1⟩
  else if 1 < d.month then ⟨d.year, d.month - 1, daysInMonth d.year (d.month - 1)⟩
  else ⟨d.year - 1, 12, 31⟩

/-- Modelled from the JS `Date` API: `date.setDate(date.getDate() - n)`
normalises to the civil date `n` days earlier (src/App.tsx line 109). -/
def subDays (d : Date) (n : Nat) : Date :=
  prevDay^[n] d

/-- The ASCII digit for `n % 10`. -/
def digitChar (n : Nat) : Char :=
  Char.ofNat (48 + n % 10)

/-- Two-digit zero-padded decimal rendering (months, days). -/
def pad2 (n : Nat) : String :=
  String.mk [digitChar (n / 10), digitChar n]

/-- Four-digit zero-padded decimal rendering (years). -/
def pad4 (n : Nat) : String :=
  String.mk [digitChar (n / 1000), digitChar (n / 100), digitChar (n / 10), digitChar n]

/-- Modelled from the JS `Date` API: `toLocaleDateString("en-CA")` renders a
date as `YYYY-MM-DD` (src/App.tsx line 15 and line 110). -/
def formatDate (d : Date) : String :=
  pad4 d.year ++ "-" ++ pad2 d.month ++ "-" ++ pad2 d.day

/-- Lexicographic order on character lists, comparing code points. -/
def charListLe : List Char → List Char → Bool
  | [], _ => true
  | _ :: _, [] => false
  | a :: as, b :: bs =>
    if a.val < b.val then true
    else if b.val < a.val then false
    else charListLe as bs

/-- JS string `<=`: code-unit lexicographic comparison.  `a >= b` in the
source is `jsStrLe b a` (src/App.tsx line 113). -/
def jsStrLe (a b : String) : Bool :=
  charListLe a.data b.data

/-- The ensure-today updater (src/App.tsx lines 60-67): if no entry carries
`todayDate`, prepend a fresh zero-count entry, otherwise leave the history
unchanged. -/
def ensureToday (todayDate : String) (currentHistory : List TrackerData) : List TrackerData :=
  let hasTodayEntry := currentHistory.any (fun entry => entry.date == todayDate)
  if hasTodayEntry then currentHistory
  else { count := 0, date := todayDate } :: currentHistory

/-- `incrementCount` (src/App.tsx lines 80-88): bump the count of every entry
dated `todayDate` by one. -/
def incrementCount (todayDate : String) (currentHistory : List TrackerData) : List TrackerData :=
  currentHistory.map (fun entry =>
    if entry.date == todayDate then { entry with count := entry.count + 1 } else entry)

/-- `resetCount` (src/App.tsx lines 90-100), after the confirmation dialog
(presentation concern): zero the count of every entry dated `todayDate`. -/
def resetCount (todayDate : String) (currentHistory : List TrackerData) : List TrackerData :=
  currentHistory.map (fun entry =>
    if entry.date == todayDate then { entry with count := 0 } else entry)

/-- The `summaryStats` memo (src/App.tsx lines 102-119).  `today` models the
`new Date()` taken at line 108.  In the empty-history branch the source
returns `bestDay: { count: 0 }` with no date field; the fold seed
`{ count := 0, date := "" }` of line 116 is used for it here. -/
def summaryStats (today : Date) (history : List TrackerData) : Summary :=
  if history.isEmpty then
    { total := 0, last7DaysTotal := 0, bestDay := { count := 0, date := "" } }
  else
    let total := history.foldl (fun sum entry => sum + entry.count) 0
    let sevenDaysAgoStr := formatDate (subDays today 6)
    let last7DaysTotal :=
      (history.filter (fun entry => jsStrLe sevenDaysAgoStr entry.date)).foldl
        (fun sum entry => sum + entry.count) 0
    let bestDay :=
      history.foldl (fun max entry => if max.count < entry.count then entry else max)
        { count := 0, date := "" }
    { total := total, last7DaysTotal := last7DaysTotal, bestDay := bestDay }

/-- JSON values, the results of `JSON.parse` (numbers restricted to the
integers, the only numbers this program ever writes). -/
inductive Json where
  | null
  | bool (b : Bool)
  | num (n : Int)
  | str (s : String)
  | arr (elems : List Json)
  | obj (fields : List (String × Json))

/-- `JSON.stringify` of one record, at JSON-value granularity. -/
def encodeRecord (e : TrackerData) : Json :=
  Json.obj [("count", Json.num e.count), ("date", Json.str e.date)]

/-- `JSON.stringify(history)` at JSON-value granularity (src/App.tsx line 73). -/
def encodeHistory (history : List TrackerData) : Json :=
  Json.arr (history.map encodeRecord)

/-- First value bound to `key` in a JSON object's field list. -/
def lookupField : List (String × Json) → String → Option Json
  | [], _ => none
  | (k, v) :: rest, key => if k == key then some v else lookupField rest key

/-- Reads a `TrackerData` back out of a JSON value, `none` when the value is
not the image of a record. -/
def decodeRecord : Json → Option TrackerData
  | Json.obj fields =>
    match lookupField fields "count", lookupField fields "date" with
    | some (Json.num n), some (Json.str s) => some { count := n, date := s }
    | _, _ => none
  | _ => none

/-- Element-wise decoding of a JSON array body. -/
def decodeRecords : List Json → Option (List TrackerData)
  | [] => some []
  | j :: js =>
    match decodeRecord j, decodeRecords js with
    | some r, some rs => some (r :: rs)
    | _, _ => none

/-- Reads a history back out of a JSON value: the partial inverse of
`encodeHistory`, used to state what "the stored value is a JSON-encoded
history" means. -/
def decodeHistory : Json → Option (List TrackerData)
  | Json.arr elems => decodeRecords elems
  | _ => none

/-- A persisted localStorage string, classified by its `JSON.parse` result:
either it parses to a JSON value or `JSON.parse` throws. -/
inductive Stored where
  | blob (j : Json)
  | junk

/-- The `"jobApplicationHistory"` slot of localStorage: absent or a string. -/
def Store := Option Stored

/-- The save effect (src/App.tsx lines 71-74): skipped when the history is
empty, otherwise overwrites the slot with `JSON.stringify(history)`. -/
def save (history : List TrackerData) (st : Store) : Store :=
  if history.length == 0 then st
  else some (Stored.blob (encodeHistory history))

/-- The load effect (src/App.tsx lines 44-54): `[]` when the slot is absent,
the `JSON.parse` result when it parses, and `[]` (via the catch block) when
parsing throws.  The parsed value is assigned to the `TrackerData[]`-typed
state without validation, so the result is returned as a raw JSON value. -/
def load (st : Store) : Json :=
  match st with
  | none => Json.arr []
  | some Stored.junk => Json.arr []
  | some (Stored.blob j) => j

end Jobclick

namespace Jobclick

/-! ## Helper lemmas -/

/-- The source's `reduce((sum, entry) => sum + entry.count, 0)` pattern equals
the sum of the projected counts. -/
lemma foldl_add_count (l : List TrackerData) (a : Int) :
    l.foldl (fun sum entry => sum + entry.count) a = a + (l.map (fun e => e.count)).sum := by
  induction l generalizing a with
  | nil => simp
  | cons e t ih => simp [ih, add_assoc]

/-- Decoding inverts encoding on every history, at JSON-value granularity. -/
lemma decodeHistory_encodeHistory (h : List TrackerData) :
    decodeHistory (encodeHistory h) = some h := by
  have : ∀ l : List TrackerData, decodeRecords (l.map encodeRecord) = some l := by
    intro l
    induction l with
    | nil => rfl
    | cons e t ih => simp [decodeRecords, decodeRecord, encodeRecord, lookupField, ih]
  simpa [decodeHistory, encodeHistory] using this h

end Jobclick

namespace Jobclick

/-! ## Claim theorems -/

/-- C1: for every history `h` and date `d`, if `h` contains no record dated
`d` then `ensureToday d h` prepends `{ count := 0, date := d }` to `h`
(existing records unchanged, in order); if `h` already contains a record
dated `d`, it returns `h` unchanged. -/
theorem ensureToday_creates_or_keeps (d : String) (h : List TrackerData) :
    ((∀ e ∈ h, e.date ≠ d) → ensureToday d h = { count := 0, date := d } :: h) ∧
    ((∃ e ∈ h, e.date = d) → ensureToday d h = h) := by
  constructor
  · intro hnone
    have hany : h.any (fun entry => entry.date == d) = false := by
      simpa using hnone
    simp [ensureToday, hany]
  · rintro ⟨e, he, hdate⟩
    have hany : h.any (fun entry => entry.date == d) = true := by
      simp only [List.any_eq_true]
      exact ⟨e, he, by simp [hdate]⟩
    simp [ensureToday, hany]

/-- Witness for C1 at a concrete input: starting from the empty history,
`ensureToday` creates the zero-count record for 2024-06-10. -/
theorem ensureToday_creates_or_keeps_witness :
    ensureToday "2024-06-10" [] = [{ count := 0, date := "2024-06-10" }] :=
  (ensureToday_creates_or_keeps "2024-06-10" []).1 (by simp)

/-- C2: `ensureToday` is idempotent — applying it twice with the same date
yields the same history as applying it once. -/
theorem ensureToday_idempotent (d : String) (h : List TrackerData) :
    ensureToday d (ensureToday d h) = ensureToday d h := by
  by_cases hc : h.any (fun entry => entry.date == d) = true
  · simp [ensureToday, hc]
  · simp [ensureToday, hc]

/-- C9: for every history (the empty one included) and any current date,
`total` is the sum of the counts of exactly the records in the list. -/
theorem total_eq_sum_counts (d : Date) (h : List TrackerData) :
    (summaryStats d h).total = (h.map (fun e => e.count)).sum := by
  by_cases hh : h.isEmpty = true
  · rw [List.isEmpty_iff] at hh
    subst hh
    simp [summaryStats]
  · simp [summaryStats, hh, foldl_add_count]

end Jobclick

namespace Jobclick

/-- Formalisation of the claim's wording for the 7-day window: a record
counts iff its date lies between the date 6 days before today and today,
both bounds inclusive. -/
def inClaimWindow (today : Date) (e : TrackerData) : Bool :=
  jsStrLe (formatDate (subDays today 6)) e.date && jsStrLe e.date (formatDate today)

/-- C5 counterexample: with today = 2024-06-10 and a single record dated
2024-06-11 (after today), the code's `last7DaysTotal` is 1 while the claim's
both-bounds window contains no record, so the totals differ. -/
theorem last7DaysTotal_upper_bound_cex :
    (summaryStats ⟨2024, 6, 10⟩ [{ count := 1, date := "2024-06-11" }]).last7DaysTotal ≠
      (([{ count := 1, date := "2024-06-11" }].filter
          (inClaimWindow ⟨2024, 6, 10⟩)).map (fun e => e.count)).sum := by
  decide

/-- C5 (amended): `last7DaysTotal` sums the counts of exactly those records
whose date is lexicographically at least the date 6 days before today — a
floor comparison with no upper bound; in particular, with today = 2024-06-10
and records [(06-10, 2), (06-04, 3), (06-03, 5)] it equals 5. -/
theorem last7DaysTotal_eq_sum_floor :
    (∀ (d : Date) (h : List TrackerData),
        (summaryStats d h).last7DaysTotal =
          ((h.filter (fun e => jsStrLe (formatDate (subDays d 6)) e.date)).map
            (fun e => e.count)).sum) ∧
    (summaryStats ⟨2024, 6, 10⟩
        [{ count := 2, date := "2024-06-10" }, { count := 3, date := "2024-06-04" },
         { count := 5, date := "2024-06-03" }]).last7DaysTotal = 5 := by
  constructor
  · intro d h
    by_cases hh : h.isEmpty = true
    · rw [List.isEmpty_iff] at hh
      subst hh
      simp [summaryStats]
    · simp [summaryStats, hh, foldl_add_count]
  · decide

/-- C3 counterexample: saving the (valid) empty history is skipped, so with a
non-empty history already in the store, load-after-save returns the old
history, not the empty one that was "saved". -/
theorem save_load_roundtrip_cex :
    decodeHistory (load (save ([] : List TrackerData)
        (some (Stored.blob (encodeHistory [{ count := 1, date := "2024-01-01" }]))))) ≠
      some ([] : List TrackerData) := by
  decide

/-- C3 (amended): for every non-empty valid history `h` and any prior store
contents, saving `h` and then loading yields a value that decodes back to
exactly `h`; for the empty history `save` deliberately writes nothing, so the
previously stored value is what loads. -/
theorem save_load_roundtrip (st : Store) (h : List TrackerData) (hne : h ≠ []) :
    decodeHistory (load (save h st)) = some h := by
  have hlen : (h.length == 0) = false := by
    simpa using hne
  simp [save, hlen, load, decodeHistory_encodeHistory]

/-- Witness for C3 at a concrete input: a one-record history round-trips
through an empty store. -/
theorem save_load_roundtrip_witness :
    decodeHistory (load (save [{ count := 2, date := "2024-06-10" }] none)) =
      some [{ count := 2, date := "2024-06-10" }] :=
  save_load_roundtrip none [{ count := 2, date := "2024-06-10" }] (by simp)

/-- C4 counterexample: the stored string `"42"` parses as the JSON number 42,
which is not a JSON encoding of any history; the claim says load falls back
to the empty history, but the code returns the parsed value unvalidated. -/
theorem load_unvalidated_cex :
    decodeHistory (Json.num 42) = none ∧
    load (some (Stored.blob (Json.num 42))) ≠ Json.arr [] ∧
    decodeHistory (load (some (Stored.blob (Json.num 42)))) ≠ some ([] : List TrackerData) := by
  refine ⟨rfl, ?_, ?_⟩
  · intro hcontra
    exact Json.noConfusion hcontra
  · intro hcontra
    simp [load, decodeHistory] at hcontra

/-- C4 (amended): when the stored value is absent, or is a string on which
`JSON.parse` throws, load yields the empty history; when it is parseable
JSON, load returns the parsed value without validating its shape — in
particular every stored JSON-encoded history loads back as that history. -/
theorem load_never_fails :
    decodeHistory (load none) = some ([] : List TrackerData) ∧
    decodeHistory (load (some Stored.junk)) = some ([] : List TrackerData) ∧
    ∀ h : List TrackerData,
      decodeHistory (load (some (Stored.blob (encodeHistory h)))) = some h := by
  refine ⟨rfl, rfl, ?_⟩
  intro h
  simpa [load] using decodeHistory_encodeHistory h

end Jobclick

namespace Jobclick

/-- C7: `incrementCount d` preserves length and positions, adds exactly 1 to
the count at every position whose record is dated `d` while leaving all other
records untouched, and is a no-op (not an error) when no record is dated `d`. -/
theorem incrementCount_spec (d : String) (h : List TrackerData) :
    (incrementCount d h).length = h.length ∧
    (∀ (i : Nat) (e : TrackerData), h[i]? = some e →
      (incrementCount d h)[i]? =
        some (if e.date = d then { e with count := e.count + 1 } else e)) ∧
    ((∀ e ∈ h, e.date ≠ d) → incrementCount d h = h) := by
  refine ⟨by simp [incrementCount], ?_, ?_⟩
  · intro i e hi
    simp [incrementCount, List.getElem?_map, hi, beq_iff_eq]
  · intro hnone
    have : ∀ e ∈ h, (if e.date == d then { e with count := e.count + 1 } else e) = e := by
      intro e he
      simp [hnone e he]
    calc incrementCount d h
        = h.map id := List.map_congr_left (by simpa [incrementCount] using this)
      _ = h := List.map_id h

/-- Witness for C7 at a concrete input: incrementing bumps the matching
record at position 0 from count 0 to count 1. -/
theorem incrementCount_spec_witness :
    (incrementCount "2024-06-10"
        [{ count := 0, date := "2024-06-10" }, { count := 3, date := "2024-05-01" }])[0]? =
      some { count := 1, date := "2024-06-10" } := by
  have happ := (incrementCount_spec "2024-06-10"
      [{ count := 0, date := "2024-06-10" }, { count := 3, date := "2024-05-01" }]).2.1
      0 { count := 0, date := "2024-06-10" } rfl
  simpa using happ

/-- C8: on a history containing a record dated `d`, incrementing then
resetting for `d` leaves a history of the same length in which every position
dated `d` holds count 0 and every other position is exactly the original
record (same date, same count, same position). -/
theorem increment_then_reset_spec (d : String) (h : List TrackerData)
    (_hex : ∃ e ∈ h, e.date = d) :
    (resetCount d (incrementCount d h)).length = h.length ∧
    (∀ (i : Nat) (e : TrackerData), h[i]? = some e →
      (resetCount d (incrementCount d h))[i]? =
        some (if e.date = d then { e with count := 0 } else e)) := by
  refine ⟨by simp [incrementCount, resetCount], ?_⟩
  intro i e hi
  by_cases hd : e.date = d
  · simp [incrementCount, resetCount, List.getElem?_map, hi, beq_iff_eq, hd]
  · simp [incrementCount, resetCount, List.getElem?_map, hi, beq_iff_eq, hd]

/-- Witness for C8 at a concrete input: after increment-then-reset for
2024-06-10, position 0 (dated 2024-06-10) holds count 0 and position 1 is
untouched. -/
theorem increment_then_reset_spec_witness :
    (resetCount "2024-06-10" (incrementCount "2024-06-10"
        [{ count := 4, date := "2024-06-10" }, { count := 3, date := "2024-05-01" }]))[1]? =
      some { count := 3, date := "2024-05-01" } := by
  have happ := (increment_then_reset_spec "2024-06-10"
      [{ count := 4, date := "2024-06-10" }, { count := 3, date := "2024-05-01" }]
      (by simp)).2 1 { count := 3, date := "2024-05-01" } rfl
  simpa using happ

/-- The history invariants of the data model: at most one record per date
(dates pairwise distinct) and no negative count. -/
def HistoryInv (h : List TrackerData) : Prop :=
  (h.map (fun e => e.date)).Nodup ∧ ∀ e ∈ h, 0 ≤ e.count


/-- C10: `ensureToday`, `incrementCount` and `resetCount` all preserve the
history invariants (unique dates, non-negative counts). -/
theorem operations_preserve_inv (d : String) (h : List TrackerData)
    (hinv : HistoryInv h) :
    HistoryInv (ensureToday d h) ∧ HistoryInv (incrementCount d h) ∧
      HistoryInv (resetCount d h) := by
  obtain ⟨hnodup, hpos⟩ := hinv
  have hdates : ∀ g : TrackerData → TrackerData, (∀ e, (g e).date = e.date) →
      ((h.map g).map (fun e => e.date)).Nodup := by
    intro g hg
    have hmm : (h.map g).map (fun e => e.date) = h.map (fun e => e.date) := by
      rw [List.map_map]
      exact List.map_congr_left (fun e _ => hg e)
    rw [hmm]
    exact hnodup
  have hcnt : ∀ g : TrackerData → TrackerData, (∀ e ∈ h, 0 ≤ (g e).count) →
      ∀ e ∈ h.map g, 0 ≤ e.count := by
    intro g hg e he
    obtain ⟨x, hx, rfl⟩ := List.mem_map.mp he
    exact hg x hx
  refine ⟨?_, ⟨?_, ?_⟩, ⟨?_, ?_⟩⟩
  · by_cases hc : h.any (fun entry => entry.date == d) = true
    · have hval : ensureToday d h = h := by
        simp [ensureToday, hc]
      rw [hval]
      exact ⟨hnodup, hpos⟩
    · have hval : ensureToday d h = { count := 0, date := d } :: h := by
        simp [ensureToday, hc]
      have hfresh : ∀ e ∈ h, ¬ e.date = d := by
        simpa using hc
      rw [hval]
      constructor
      · simp only [List.map_cons, List.nodup_cons]
        refine ⟨?_, hnodup⟩
        simp only [List.mem_map, not_exists]
        rintro e ⟨he, hdate⟩
        exact hfresh e he hdate
      · intro e he
        rcases List.mem_cons.mp he with rfl | hmem
        · simp
        · exact hpos e hmem
  · exact hdates _ (fun e => by by_cases hdd : e.date = d <;> simp [hdd])
  · exact hcnt _ (fun e he => by
      have h0 := hpos e he
      by_cases hdd : e.date = d <;> simp [hdd] <;> omega)
  · exact hdates _ (fun e => by by_cases hdd : e.date = d <;> simp [hdd])
  · exact hcnt _ (fun e he => by
      have h0 := hpos e he
      by_cases hdd : e.date = d <;> simp [hdd] <;> omega)

/-- Witness for C10 at a concrete input: a two-record invariant-satisfying
history still satisfies the invariants after each operation. -/
theorem operations_preserve_inv_witness :
    HistoryInv (ensureToday "2024-06-10"
        [{ count := 2, date := "2024-06-09" }, { count := 1, date := "2024-06-08" }]) :=
  (operations_preserve_inv "2024-06-10"
      [{ count := 2, date := "2024-06-09" }, { count := 1, date := "2024-06-08" }]
      (by constructor <;> decide)).1

end Jobclick

namespace Jobclick

/-- If no element beats the accumulator, the best-day fold keeps it. -/
lemma bestFold_const (l : List TrackerData) (acc : TrackerData)
    (hall : ∀ e ∈ l, e.count ≤ acc.count) :
    l.foldl (fun max entry => if max.count < entry.count then entry else max) acc = acc := by
  induction l generalizing acc with
  | nil => rfl
  | cons e t ih =>
    have he : e.count ≤ acc.count := hall e (by simp)
    simp only [List.foldl_cons, if_neg (by omega : ¬ acc.count < e.count)]
    exact ih acc (fun x hx => hall x (by simp [hx]))

/-- If some element beats the accumulator, the best-day fold returns the
first element attaining the maximum count: it is in the list, beats the
accumulator, dominates every element, and strictly dominates every earlier
position. -/
lemma bestFold_max (l : List TrackerData) (acc : TrackerData)
    (hex : ∃ e ∈ l, acc.count < e.count) :
    ∃ (i : Nat) (b : TrackerData), l[i]? = some b ∧
      l.foldl (fun max entry => if max.count < entry.count then entry else max) acc = b ∧
      acc.count < b.count ∧
      (∀ e ∈ l, e.count ≤ b.count) ∧
      ∀ j : Nat, j < i → ∀ c : TrackerData, l[j]? = some c → c.count < b.count := by
  induction l generalizing acc with
  | nil => simp at hex
  | cons e t ih =>
    simp only [List.foldl_cons]
    by_cases hce : acc.count < e.count
    · rw [if_pos hce]
      by_cases hex2 : ∃ x ∈ t, e.count < x.count
      · obtain ⟨i, b, hib, hfold, hacc, hub, hfirst⟩ := ih e hex2
        refine ⟨i + 1, b, by simpa using hib, hfold, by omega, ?_, ?_⟩
        · intro x hx
          rcases List.mem_cons.mp hx with rfl | hxt
          · omega
          · exact hub x hxt
        · intro j hj c hc
          match j with
          | 0 =>
            simp only [List.getElem?_cons_zero, Option.some_inj] at hc
            subst hc
            omega
          | k + 1 =>
            simp only [List.getElem?_cons_succ] at hc
            exact hfirst k (by omega) c hc
      · push_neg at hex2
        have hconst := bestFold_const t e hex2
        refine ⟨0, e, by simp, hconst, hce, ?_, by omega⟩
        intro x hx
        rcases List.mem_cons.mp hx with rfl | hxt
        · exact le_refl _
        · exact hex2 x hxt
    · rw [if_neg hce]
      have hexn : ∃ x ∈ t, acc.count < x.count := by
        obtain ⟨x, hx, hlt⟩ := hex
        rcases List.mem_cons.mp hx with rfl | hxt
        · exact absurd hlt hce
        · exact ⟨x, hxt, hlt⟩
      obtain ⟨i, b, hib, hfold, hacc, hub, hfirst⟩ := ih acc hexn
      refine ⟨i + 1, b, by simpa using hib, hfold, hacc, ?_, ?_⟩
      · intro x hx
        rcases List.mem_cons.mp hx with rfl | hxt
        · omega
        · exact hub x hxt
      · intro j hj c hc
        match j with
        | 0 =>
          simp only [List.getElem?_cons_zero, Option.some_inj] at hc
          subst hc
          omega
        | k + 1 =>
          simp only [List.getElem?_cons_succ] at hc
          exact hfirst k (by omega) c hc

/-- C6 counterexample: on the non-empty history [(2024-01-01, 0)] the claim
says `bestDay` is its (unique, hence first maximal) record, but the code
returns the fold seed `{ count := 0, date := "" }`, which is not a record of
the history at all. -/
theorem bestDay_cex :
    (summaryStats ⟨2024, 1, 1⟩ [{ count := 0, date := "2024-01-01" }]).bestDay ∉
      [{ count := 0, date := "2024-01-01" }] := by
  decide

/-- C6 (amended): when some record has a strictly positive count, `bestDay`
is the first record in list order attaining the maximum count; when the
history is empty or no count is positive, `bestDay` is the fold seed
`{ count := 0, date := "" }` (count 0), which need not be a record of the
history. -/
theorem bestDay_spec (d : Date) (h : List TrackerData) :
    ((∃ e ∈ h, 0 < e.count) →
      ∃ (i : Nat) (b : TrackerData), h[i]? = some b ∧
        (summaryStats d h).bestDay = b ∧
        (∀ e ∈ h, e.count ≤ b.count) ∧
        ∀ j : Nat, j < i → ∀ c : TrackerData, h[j]? = some c → c.count < b.count) ∧
    ((∀ e ∈ h, e.count ≤ 0) →
      (summaryStats d h).bestDay = { count := 0, date := "" }) := by
  constructor
  · intro hex
    obtain ⟨e0, he0, hpos0⟩ := hex
    have hne : h.isEmpty = false := by
      cases h with
      | nil => simp at he0
      | cons a t => rfl
    have hbd : (summaryStats d h).bestDay =
        h.foldl (fun max entry => if max.count < entry.count then entry else max)
          { count := 0, date := "" } := by
      simp [summaryStats, hne]
    obtain ⟨i, b, hib, hfold, _, hub, hfirst⟩ :=
      bestFold_max h { count := 0, date := "" } ⟨e0, he0, hpos0⟩
    exact ⟨i, b, hib, hbd.trans hfold, hub, hfirst⟩
  · intro hall
    by_cases hne : h.isEmpty = true
    · rw [List.isEmpty_iff] at hne
      subst hne
      simp [summaryStats]
    · have hbd : (summaryStats d h).bestDay =
          h.foldl (fun max entry => if max.count < entry.count then entry else max)
            { count := 0, date := "" } := by
        simp [summaryStats, hne]
      rw [hbd]
      exact bestFold_const h { count := 0, date := "" } hall

/-- Witness for C6 at concrete inputs: on the empty history the hypothesis
of the degenerate branch holds vacuously and `bestDay` is the count-0 seed. -/
theorem bestDay_spec_witness :
    (summaryStats ⟨2024, 6, 10⟩ []).bestDay = { count := 0, date := "" } :=
  (bestDay_spec ⟨2024, 6, 10⟩ []).2 (by simp)

end Jobclick
